import Mathlib

/-!
Verification development for the search-videos repository: the frontend
upload validation, search-bar submission and confidence labelling are
embedded from the JavaScript sources; the backend pipeline and hybrid
search engine, absent from the checked-in sources, are modelled from the
specification.
-/

namespace SearchVideos

/-! ## Frontend: upload validation (src/unnamed/part_004, validate_video_file) -/

/-- A browser File object as far as validate_video_file inspects it:
its byte size and its MIME type string. A missing file (null/undefined
in JavaScript) is represented as the none case of an Option. -/
structure VideoFile where
  size : Nat
  type : String
deriving Repr, DecidableEq

/-- Return shape of validate_video_file: a valid flag and an optional
error message. -/
structure ValidationResult where
  valid : Bool
  error : Option String
deriving Repr, DecidableEq

/-- Maximum upload size, 500 MB, from validate_video_file. -/
def max_size : Nat := 500 * 1024 * 1024

/-- MIME types accepted by validate_video_file. -/
def allowed_types : List String :=
  ["video/mp4", "video/webm", "video/ogg", "video/quicktime"]

/-- Embedding of validate_video_file from src/unnamed/part_004 lines
96-113: reject a missing file, a file whose size exceeds 500 MB, or a
file whose MIME type is not allowed; accept everything else. -/
def validate_video_file (file : Option VideoFile) : ValidationResult :=
  match file with
  | none => ⟨false, some "No file selected"⟩
  | some f =>
    if f.size > max_size then
      ⟨false, some "File size exceeds 500MB limit"⟩
    else if ¬ (allowed_types.contains f.type) then
      ⟨false, some "Invalid file type. Please upload MP4, WebM, OGG, or MOV"⟩
    else
      ⟨true, none⟩

/-! ## Frontend: search type selection (src/unnamed/part_000, getSearchType) -/

/-- The modality selector values the search bar can submit. -/
inductive SearchType where
  | vector
  | visual
  | audio
deriving Repr, DecidableEq

/-- Embedding of getSearchType from src/unnamed/part_000 lines 22-27:
both checkboxes or neither give vector search, a single checkbox gives
that single modality. -/
def getSearchType (visual audio : Bool) : SearchType :=
  if visual && audio then .vector
  else if visual && !audio then .visual
  else if !visual && audio then .audio
  else .vector

/-- Characters of a string with leading and trailing whitespace
removed, the executable counterpart of the JavaScript trim call in the
submit handlers. -/
def trimChars (s : String) : List Char :=
  ((s.data.dropWhile Char.isWhitespace).reverse.dropWhile
    Char.isWhitespace).reverse

/-- Embedding of handle_submit from src/unnamed/part_000 lines 29-36 and
src/frontend/src/components/SearchBar.jsx lines 7-12: the search
callback fires only when the trimmed query is non-empty; none means no
search request was dispatched. -/
def handle_submit (query : String) (visual audio : Bool) (topK : Nat) :
    Option (String × SearchType × Nat) :=
  if trimChars query ≠ [] then some (query, getSearchType visual audio, topK)
  else none

/-! ## Frontend: confidence labels (two implementations) -/

/-- Confidence badge label shown on a clip card. -/
inductive Confidence where
  | low
  | medium
  | high
deriving Repr, DecidableEq

/-- Embedding of confidence_level from
src/frontend/src/components/VideoClipCard.jsx line 9: HIGH above 0.8,
MEDIUM above 0.5, LOW otherwise. Scores are modelled as rationals. -/
def confidence_level (score : ℚ) : Confidence :=
  if score > 8/10 then .high
  else if score > 5/10 then .medium
  else .low

/-- Embedding of the confidence labelling of VideoClipCard in
src/unnamed/part_001 lines 10-25: rescale the score to the 0-100 range,
clamp it, cap the evaluation value at 80, then label MEDIUM on [70,80)
and HIGH at 80 and above. -/
def confidenceLabel (score : ℚ) : Confidence :=
  let rawScore : ℚ := score
  let normalizedScore : ℚ := if rawScore > 1 then rawScore else |rawScore| * 100
  let clampedScore : ℚ := max 0 (min normalizedScore 100)
  let evaluationScore : ℚ := min clampedScore 80
  if 70 ≤ evaluationScore ∧ evaluationScore < 80 then .medium
  else if 80 ≤ evaluationScore then .high
  else .low

/-! ## Hybrid search engine

Modelled from the spec: the backend search service is not among the
checked-in sources, so fusion, ranking and truncation are taken from
section 4.4 of the spec. Candidate sets are association lists from a
segment key to a normalized score. -/

/-- Key identifying a segment in the index: video id and segment start
time. -/
abbrev SegKey : Type := Nat × ℚ

/-- Score a candidate list assigns to a key, if the key is present. -/
def lookupScore : List (SegKey × ℚ) → SegKey → Option ℚ
  | [], _ => none
  | x :: rest, key => if x.1 = key then some x.2 else lookupScore rest key

/-- Modelled from the spec: fused score of one candidate key given the
vector candidate list A and the lexical candidate list B plus the fusion
weights; an item found in both lists gets the weighted sum of its two
scores and an item found in only one list keeps exactly that component
score, with nothing fabricated for the missing component. -/
def fusedScore (wA wB : ℚ) (A B : List (SegKey × ℚ)) (key : SegKey) : ℚ :=
  match lookupScore A key, lookupScore B key with
  | some a, some b => wA * a + wB * b
  | some a, none => a
  | none, some b => b
  | none, none => 0

/-- Modelled from the spec: keys of the fused result set, the union of
the keys of A and the keys of B without duplication across the lists. -/
def unionKeys (A B : List (SegKey × ℚ)) : List SegKey :=
  A.map Prod.fst ++
    (B.map Prod.fst).filter (fun key => !((A.map Prod.fst).contains key))

/-- Modelled from the spec: fusion step of the hybrid search engine,
pairing every key of the union with its fused score. -/
def fuse (wA wB : ℚ) (A B : List (SegKey × ℚ)) : List (SegKey × ℚ) :=
  (unionKeys A B).map (fun key => (key, fusedScore wA wB A B key))

/-- Result ordering of the hybrid search engine: higher fused score
first, ties broken by the earlier segment start time. -/
def resultLE (r s : SegKey × ℚ) : Prop :=
  s.2 < r.2 ∨ (r.2 = s.2 ∧ r.1.2 ≤ s.1.2)

instance : DecidableRel resultLE := fun r s => by
  unfold resultLE
  infer_instance

instance : IsTotal (SegKey × ℚ) resultLE where
  total r s := by
    rcases lt_trichotomy r.2 s.2 with h | h | h
    · exact Or.inr (Or.inl h)
    · rcases le_total r.1.2 s.1.2 with hs | hs
      · exact Or.inl (Or.inr ⟨h, hs⟩)
      · exact Or.inr (Or.inr ⟨h.symm, hs⟩)
    · exact Or.inl (Or.inl h)

instance : IsTrans (SegKey × ℚ) resultLE where
  trans r s t hrs hst := by
    rcases hrs with h1 | ⟨h1, h1s⟩ <;> rcases hst with h2 | ⟨h2, h2s⟩
    · exact Or.inl (lt_trans h2 h1)
    · exact Or.inl (h2 ▸ h1)
    · exact Or.inl (h1 ▸ h2)
    · exact Or.inr ⟨h1.trans h2, le_trans h1s h2s⟩

/-- Modelled from the spec: the hybrid search result for one query,
sorting the fused candidates by fused score descending with ties broken
by earliest segment start, then truncating to the top k. -/
def hybridSearch (wA wB : ℚ) (k : Nat) (A B : List (SegKey × ℚ)) :
    List (SegKey × ℚ) :=
  (List.insertionSort resultLE (fuse wA wB A B)).take k

/-! ## Pipeline orchestrator state machine

Modelled from the spec: the orchestrator sources are not checked in, so
the stage order, failure and retry transitions follow section 4.1. -/

/-- Stages of a pipeline run. -/
inductive Stage where
  | created
  | segmenting
  | embedding
  | indexing
  | completed
  | failed
deriving Repr, DecidableEq, Fintype

/-- Modelled from the spec: the successor of each stage in the fixed
order; terminal stages have no successor. -/
def nextStage : Stage → Option Stage
  | .created => some .segmenting
  | .segmenting => some .embedding
  | .embedding => some .indexing
  | .indexing => some .completed
  | .completed => none
  | .failed => none

/-- The two terminal stages of a run. -/
def terminalStage : Stage → Bool
  | .completed => true
  | .failed => true
  | _ => false

/-- Events the orchestrator applies to a run: advancing after a stage
completion, failing, or retrying the current stage. -/
inductive PipeEvent where
  | advance
  | fail
  | retry
deriving Repr, DecidableEq, Fintype

/-- Modelled from the spec: one orchestrator transition; none means the
event is discarded (no transition out of a terminal stage). -/
def stepRun (s : Stage) (e : PipeEvent) : Option Stage :=
  match e with
  | .advance => nextStage s
  | .fail => if terminalStage s then none else some .failed
  | .retry => if terminalStage s then none else some s

/-- Position of each stage in the pipeline order, used to express
monotonicity of a run. -/
def stageRank : Stage → Nat
  | .created => 0
  | .segmenting => 1
  | .embedding => 2
  | .indexing => 3
  | .completed => 4
  | .failed => 5

/-! ## Index writer

Modelled from the spec: the index writer sources are not checked in, so
upsert semantics follow section 4.3 of the spec. -/

/-- Persisted unit of the index: segment metadata, embedding vector,
model version and lexical text, keyed by video id and segment start. -/
structure IndexEntry where
  videoId : Nat
  segmentStart : ℚ
  vector : List ℚ
  modelVersion : Nat
  text : String
deriving Repr, DecidableEq

/-- The key of an index entry. -/
def entryKey (e : IndexEntry) : SegKey := (e.videoId, e.segmentStart)

/-- Modelled from the spec: idempotent upsert of the index writer; a
write to an existing key overwrites that entry in place, otherwise the
entry is appended. -/
def upsert : List IndexEntry → IndexEntry → List IndexEntry
  | [], e => [e]
  | x :: rest, e =>
    if entryKey x = entryKey e then e :: rest else x :: upsert rest e

/-- All entries of the index stored under one key. -/
def entriesFor (idx : List IndexEntry) (key : SegKey) : List IndexEntry :=
  idx.filter (fun x => decide (entryKey x = key))

/-! ## Stage coordinator modality handling

Modelled from the spec: the coordinator sources are not checked in, so
per-modality retry and completion follow section 4.2 of the spec. -/

/-- Outcome of one embedding capability call. -/
inductive ModalityOutcome where
  | success (vector : List ℚ)
  | failure
deriving Repr, DecidableEq

/-- Which modalities a segment requires. -/
structure ModalityReq where
  needVisual : Bool
  needAudio : Bool
deriving Repr, DecidableEq

/-- Per-segment embedding progress: the retained result of each
modality, if it already succeeded, and how many capability calls each
modality has received. -/
structure SegEmbState where
  visual : Option (List ℚ)
  audio : Option (List ℚ)
  visualCalls : Nat
  audioCalls : Nat
deriving Repr, DecidableEq

/-- Modelled from the spec: one retry round of the coordinator. A
required modality that has not succeeded yet is called once more, with
the given outcome; a modality that already succeeded is not called again
and its retained result is untouched. -/
def attemptStep (req : ModalityReq) (ov oa : ModalityOutcome)
    (s : SegEmbState) : SegEmbState where
  visual :=
    if req.needVisual = true ∧ s.visual = none then
      match ov with
      | .success v => some v
      | .failure => none
    else s.visual
  audio :=
    if req.needAudio = true ∧ s.audio = none then
      match oa with
      | .success v => some v
      | .failure => none
    else s.audio
  visualCalls :=
    if req.needVisual = true ∧ s.visual = none then s.visualCalls + 1
    else s.visualCalls
  audioCalls :=
    if req.needAudio = true ∧ s.audio = none then s.audioCalls + 1
    else s.audioCalls

/-- Modelled from the spec: a segment is stage-complete once every
required modality holds a result. -/
def stageComplete (req : ModalityReq) (s : SegEmbState) : Bool :=
  (!req.needVisual || s.visual.isSome) && (!req.needAudio || s.audio.isSome)

/-- Modelled from the spec: the Embedding stage succeeds only once every
segment in the run satisfies its required modality set. -/
def embeddingStageComplete (l : List (ModalityReq × SegEmbState)) : Bool :=
  l.all (fun p => stageComplete p.1 p.2)

/-! ## Search request validation and error taxonomy

The frontend guard is embedded from the sources (handle_submit above);
the backend side is modelled from the spec, sections 4.4 and 7. -/

/-- A search request: optional text, optional image reference, modality
selector and result count. -/
structure SearchQuery where
  text : Option String
  image : Option String
  searchType : SearchType
  k : Nat
deriving Repr, DecidableEq

/-- Whether the request carries usable text: present and not
whitespace-only. -/
def hasText (q : SearchQuery) : Bool :=
  match q.text with
  | some s => !(trimChars s).isEmpty
  | none => false

/-- Modelled from the spec: a request is valid when it carries text or
an image. -/
def validSearchRequest (q : SearchQuery) : Bool :=
  hasText q || q.image.isSome

/-- Error classes of the taxonomy in section 7 of the spec. -/
inductive SearchErrorClass where
  | validation
  | transientWorker
  | permanentStage
deriving Repr, DecidableEq

/-- Modelled from the spec: only transient worker errors are retried;
validation errors and permanent stage errors never are. -/
def retryable : SearchErrorClass → Bool
  | .transientWorker => true
  | _ => false

/-- Modelled from the spec: the search endpoint validates the request
before any retrieval; the second component counts how many index
retrievals were performed. -/
def searchEndpoint (q : SearchQuery) (wA wB : ℚ)
    (A B : List (SegKey × ℚ)) :
    Except SearchErrorClass (List (SegKey × ℚ)) × Nat :=
  if validSearchRequest q then (.ok (hybridSearch wA wB q.k A B), 1)
  else (.error .validation, 0)

end SearchVideos

namespace SearchVideos

/-! ## Theorems for the frontend claims -/

/-- C8: getSearchType is a total function into the three-element
modality set; both checkboxes selected and neither selected give vector
search, and a single selected checkbox gives that single modality, so an
out-of-range selector is never submitted. -/
theorem getSearchType_total_and_correct :
    (∀ v a : Bool,
      getSearchType v a = .vector ∨ getSearchType v a = .visual ∨
        getSearchType v a = .audio) ∧
    getSearchType true true = .vector ∧
    getSearchType false false = .vector ∧
    getSearchType true false = .visual ∧
    getSearchType false true = .audio := by
  refine ⟨?_, by decide, by decide, by decide, by decide⟩
  decide

theorem validate_eq_of_oversize (f : VideoFile) (h : f.size > max_size) :
    validate_video_file (some f) =
      ⟨false, some "File size exceeds 500MB limit"⟩ := by
  simp [validate_video_file, h]

theorem validate_eq_of_bad_type (f : VideoFile) (h1 : ¬ f.size > max_size)
    (h2 : f.type ∉ allowed_types) :
    validate_video_file (some f) =
      ⟨false, some "Invalid file type. Please upload MP4, WebM, OGG, or MOV"⟩ := by
  simp [validate_video_file, h1, h2]

theorem validate_eq_of_good (f : VideoFile) (h1 : ¬ f.size > max_size)
    (h2 : f.type ∈ allowed_types) :
    validate_video_file (some f) = ⟨true, none⟩ := by
  simp [validate_video_file, h1, h2]

/-- C10: validate_video_file accepts exactly the present files of size
at most 500 MB whose MIME type is allowed, rejects everything else with
a non-empty error message, and in particular accepts a file of exactly
500 MB with an allowed type. -/
theorem validate_video_file_correct :
    (∀ file : Option VideoFile,
      ((validate_video_file file).valid = true ↔
        ∃ f, file = some f ∧ f.size ≤ 500 * 1024 * 1024 ∧
          f.type ∈ allowed_types) ∧
      ((validate_video_file file).valid = false →
        ∃ msg, (validate_video_file file).error = some msg ∧ msg.length > 0)) ∧
    (validate_video_file (some ⟨500 * 1024 * 1024, "video/mp4"⟩)).valid = true := by
  constructor
  · intro file
    match file with
    | none =>
      refine ⟨?_, ?_⟩
      · simp [validate_video_file]
      · intro _
        exact ⟨"No file selected", rfl, by decide⟩
    | some f =>
      by_cases hsize : f.size > max_size
      · rw [validate_eq_of_oversize f hsize]
        refine ⟨?_, fun _ => ⟨"File size exceeds 500MB limit", rfl, by decide⟩⟩
        constructor
        · intro h
          exact absurd h Bool.false_ne_true
        · rintro ⟨g, hg, hsz, _⟩
          cases hg
          exact absurd hsz (by simpa [max_size] using hsize)
      · by_cases htype : f.type ∈ allowed_types
        · rw [validate_eq_of_good f hsize htype]
          refine ⟨?_, fun hc => absurd hc.symm Bool.false_ne_true⟩
          exact iff_of_true rfl ⟨f, rfl, by simpa [max_size] using hsize, htype⟩
        · rw [validate_eq_of_bad_type f hsize htype]
          refine ⟨?_, fun _ =>
            ⟨"Invalid file type. Please upload MP4, WebM, OGG, or MOV", rfl,
              by decide⟩⟩
          constructor
          · intro h
            exact absurd h Bool.false_ne_true
          · rintro ⟨g, hg, _, hmem⟩
            cases hg
            exact (htype hmem).elim
  · decide

theorem validate_video_file_correct_witness :
    ∃ msg, (validate_video_file none).error = some msg ∧ msg.length > 0 :=
  (validate_video_file_correct.1 none).2 (by decide)

/-- C9 counterexample: at score 0.6 the implementation in
VideoClipCard.jsx labels MEDIUM while the implementation in
src/unnamed/part_001 labels LOW, so the two labelling functions are not
equal on all of [0,1]. -/
theorem confidence_labels_counterexample :
    confidence_level (6/10) ≠ confidenceLabel (6/10) := by
  have h1 : confidence_level (6/10) = .medium := by
    norm_num [confidence_level]
  have h2 : confidenceLabel (6/10) = .low := by
    norm_num [confidenceLabel, abs, min_def, max_def]
  rw [h1, h2]
  exact fun h => Confidence.noConfusion h

/-- C9 amended: on scores in [0,1] the two confidence labellings agree
exactly outside the region (0.5, 0.7) together with the single point
0.8; inside that region they disagree (the JSX version says MEDIUM where
the part_001 version says LOW or HIGH). -/
theorem confidence_labels_agree_iff (s : ℚ) (h0 : 0 ≤ s) (h1 : s ≤ 1) :
    confidence_level s = confidenceLabel s ↔
      s ≤ 1/2 ∨ (7/10 ≤ s ∧ s < 4/5) ∨ 4/5 < s := by
  have hns : ¬ s > 1 := not_lt.mpr h1
  have habs : |s| = s := abs_of_nonneg h0
  have hmin : min (s * 100) 100 = s * 100 := min_eq_left (by linarith)
  have hmax : max 0 (s * 100) = s * 100 := max_eq_right (by linarith)
  simp only [confidence_level, confidenceLabel, if_neg hns, habs, hmin, hmax]
  rcases le_or_lt s (1/2) with hA | hA
  · have e1 : min (s * 100) 80 = s * 100 := min_eq_left (by linarith)
    rw [e1, if_neg (show ¬ s > 8/10 by linarith),
      if_neg (show ¬ s > 5/10 by linarith),
      if_neg (show ¬ (70 ≤ s * 100 ∧ s * 100 < 80) by rintro ⟨h, _⟩; linarith),
      if_neg (show ¬ 80 ≤ s * 100 by linarith)]
    exact iff_of_true rfl (Or.inl hA)
  · rcases lt_or_le s (7/10) with hB | hB
    · have e1 : min (s * 100) 80 = s * 100 := min_eq_left (by linarith)
      rw [e1, if_neg (show ¬ s > 8/10 by linarith),
        if_pos (show s > 5/10 by linarith),
        if_neg (show ¬ (70 ≤ s * 100 ∧ s * 100 < 80) by rintro ⟨h, _⟩; linarith),
        if_neg (show ¬ 80 ≤ s * 100 by linarith)]
      refine iff_of_false (fun h => Confidence.noConfusion h) ?_
      rintro (h | ⟨h, _⟩ | h) <;> linarith
    · rcases lt_trichotomy s (4/5) with hC | hC | hC
      · have e1 : min (s * 100) 80 = s * 100 := min_eq_left (by linarith)
        rw [e1, if_neg (show ¬ s > 8/10 by linarith),
          if_pos (show s > 5/10 by linarith),
          if_pos (show 70 ≤ s * 100 ∧ s * 100 < 80 by
            exact ⟨by linarith, by linarith⟩)]
        exact iff_of_true rfl (Or.inr (Or.inl ⟨hB, hC⟩))
      · subst hC
        have e1 : min ((4:ℚ)/5 * 100) 80 = 80 := by norm_num
        rw [e1, if_neg (show ¬ (4:ℚ)/5 > 8/10 by norm_num),
          if_pos (show (4:ℚ)/5 > 5/10 by norm_num),
          if_neg (show ¬ ((70:ℚ) ≤ 80 ∧ (80:ℚ) < 80) by norm_num),
          if_pos (show (80:ℚ) ≤ 80 by norm_num)]
        refine iff_of_false (fun h => Confidence.noConfusion h) ?_
        rintro (h | ⟨_, h⟩ | h) <;> norm_num at h
      · have e1 : min (s * 100) 80 = 80 := min_eq_right (by linarith)
        rw [e1, if_pos (show s > 8/10 by linarith),
          if_neg (show ¬ ((70:ℚ) ≤ 80 ∧ (80:ℚ) < 80) by norm_num),
          if_pos (show (80:ℚ) ≤ 80 by norm_num)]
        exact iff_of_true rfl (Or.inr (Or.inr hC))

theorem confidence_labels_agree_iff_witness :
    confidence_level (9/10) = confidenceLabel (9/10) ↔
      (9:ℚ)/10 ≤ 1/2 ∨ ((7:ℚ)/10 ≤ 9/10 ∧ (9:ℚ)/10 < 4/5) ∨ (4:ℚ)/5 < 9/10 :=
  confidence_labels_agree_iff (9/10) (by norm_num) (by norm_num)

/-! ## Theorems for the hybrid search claims -/

theorem mem_unionKeys {A B : List (SegKey × ℚ)} {key : SegKey} :
    key ∈ unionKeys A B ↔ key ∈ A.map Prod.fst ∨ key ∈ B.map Prod.fst := by
  unfold unionKeys
  rw [List.mem_append]
  constructor
  · rintro (h | h)
    · exact Or.inl h
    · exact Or.inr (List.mem_of_mem_filter h)
  · rintro (h | h)
    · exact Or.inl h
    · by_cases hA : key ∈ A.map Prod.fst
      · exact Or.inl hA
      · refine Or.inr (List.mem_filter.mpr ⟨h, ?_⟩)
        simp [List.elem_iff, hA]

theorem map_fst_pairing (f : SegKey → ℚ) (l : List SegKey) :
    (l.map (fun key => (key, f key))).map Prod.fst = l := by
  induction l with
  | nil => rfl
  | cons x xs ih => simp [ih]

theorem keys_fuse (wA wB : ℚ) (A B : List (SegKey × ℚ)) :
    (fuse wA wB A B).map Prod.fst = unionKeys A B :=
  map_fst_pairing _ _

/-- C1: the fused result set is the union of the vector candidate set A
and the lexical candidate set B; every fused pair carries the fused
score of its key; with the default equal weights an item present in
both sets scores half of each component and an item present in only one
set keeps exactly that component score. -/
theorem fuse_union_and_weights :
    (∀ (wA wB : ℚ) (A B : List (SegKey × ℚ)) (p : SegKey × ℚ),
      p ∈ fuse wA wB A B → p.2 = fusedScore wA wB A B p.1) ∧
    (∀ (wA wB : ℚ) (A B : List (SegKey × ℚ)) (key : SegKey),
      key ∈ (fuse wA wB A B).map Prod.fst ↔
        key ∈ A.map Prod.fst ∨ key ∈ B.map Prod.fst) ∧
    (∀ (A B : List (SegKey × ℚ)) (key : SegKey) (a b : ℚ),
      lookupScore A key = some a → lookupScore B key = some b →
        fusedScore (1/2) (1/2) A B key = (1/2) * a + (1/2) * b) ∧
    (∀ (A B : List (SegKey × ℚ)) (key : SegKey) (a : ℚ),
      lookupScore A key = some a → lookupScore B key = none →
        fusedScore (1/2) (1/2) A B key = a) ∧
    (∀ (A B : List (SegKey × ℚ)) (key : SegKey) (b : ℚ),
      lookupScore A key = none → lookupScore B key = some b →
        fusedScore (1/2) (1/2) A B key = b) := by
  refine ⟨?_, ?_, ?_, ?_, ?_⟩
  · intro wA wB A B p hp
    unfold fuse at hp
    rcases List.mem_map.mp hp with ⟨key, _, rfl⟩
    rfl
  · intro wA wB A B key
    rw [keys_fuse]
    exact mem_unionKeys
  · intro A B key a b ha hb
    unfold fusedScore
    rw [ha, hb]
  · intro A B key a ha hb
    unfold fusedScore
    rw [ha, hb]
  · intro A B key b ha hb
    unfold fusedScore
    rw [ha, hb]

theorem fuse_union_and_weights_witness :
    fusedScore (1/2) (1/2) [((1, 0), 1)] [((1, 0), 1/2)] (1, 0) =
      (1/2) * 1 + (1/2) * (1/2) :=
  fuse_union_and_weights.2.2.1 [((1, 0), 1)] [((1, 0), 1/2)] (1, 0) 1 (1/2)
    (by rfl) (by rfl)

/-- C2: every hybrid search result list is sorted by fused score
descending with ties broken by earliest segment start, has length at
most k, and when neither branch produced any candidate the result is
the empty list rather than an error. -/
theorem hybrid_search_sorted_topk_empty :
    (∀ (wA wB : ℚ) (k : Nat) (A B : List (SegKey × ℚ)),
      List.Sorted resultLE (hybridSearch wA wB k A B)) ∧
    (∀ (wA wB : ℚ) (k : Nat) (A B : List (SegKey × ℚ)),
      (hybridSearch wA wB k A B).length ≤ k) ∧
    (∀ (wA wB : ℚ) (k : Nat), hybridSearch wA wB k [] [] = []) := by
  refine ⟨?_, ?_, ?_⟩
  · intro wA wB k A B
    exact List.Pairwise.sublist (List.take_sublist k _)
      (List.sorted_insertionSort resultLE (fuse wA wB A B))
  · intro wA wB k A B
    unfold hybridSearch
    rw [List.length_take]
    exact Nat.min_le_left _ _
  · intro wA wB k
    simp [hybridSearch, fuse, unionKeys]

/-! ## Theorems for the pipeline state machine claim -/

/-- C3: the stage order is exactly Created, Segmenting, Embedding,
Indexing, Completed; every transition either retries the current stage
or strictly advances the stage rank; a transition to a different stage
is either the unique next stage or Failed; Failed is reachable from
every non-terminal stage; and terminal stages have no outgoing
transition, so no completed stage is ever re-entered. -/
theorem pipeline_stage_order :
    nextStage .created = some .segmenting ∧
    nextStage .segmenting = some .embedding ∧
    nextStage .embedding = some .indexing ∧
    nextStage .indexing = some .completed ∧
    (∀ s e s2, stepRun s e = some s2 → s2 = s ∨ stageRank s < stageRank s2) ∧
    (∀ s e s2, stepRun s e = some s2 → s2 = s → e = .retry) ∧
    (∀ s e s2, stepRun s e = some s2 → s2 ≠ s →
      nextStage s = some s2 ∨ s2 = .failed) ∧
    (∀ s, terminalStage s = false → stepRun s .fail = some .failed) ∧
    (∀ s e, terminalStage s = true → stepRun s e = none) := by
  refine ⟨rfl, rfl, rfl, rfl, ?_, ?_, ?_, ?_, ?_⟩ <;> decide

theorem pipeline_stage_order_witness :
    Stage.segmenting = Stage.created ∨
      stageRank .created < stageRank .segmenting :=
  pipeline_stage_order.2.2.2.2.1 .created .advance .segmenting (by rfl)

theorem lookupScore_mem {l : List (SegKey × ℚ)} {key : SegKey} {a : ℚ}
    (h : lookupScore l key = some a) : (key, a) ∈ l := by
  induction l with
  | nil => simp [lookupScore] at h
  | cons x xs ih =>
    rw [lookupScore] at h
    split at h
    · rename_i hk
      cases h
      rcases x with ⟨k1, b1⟩
      cases hk
      exact List.mem_cons_self _ _
    · exact List.mem_cons_of_mem _ (ih h)

/-- C6: every result the hybrid search returns carries a fused score in
the closed interval from 0 to 1, provided the candidate scores of both
branches are normalized into that interval. -/
theorem hybrid_scores_in_unit_interval :
    ∀ (k : Nat) (A B : List (SegKey × ℚ)),
      (∀ p ∈ A, 0 ≤ p.2 ∧ p.2 ≤ 1) →
      (∀ p ∈ B, 0 ≤ p.2 ∧ p.2 ≤ 1) →
      ∀ r ∈ hybridSearch (1/2) (1/2) k A B, 0 ≤ r.2 ∧ r.2 ≤ 1 := by
  intro k A B hA hB r hr
  have hr2 : r ∈ List.insertionSort resultLE (fuse (1/2) (1/2) A B) :=
    List.take_subset k _ hr
  have hr3 : r ∈ fuse (1/2) (1/2) A B :=
    (List.perm_insertionSort resultLE _).mem_iff.mp hr2
  rcases List.mem_map.mp hr3 with ⟨key, _, rfl⟩
  show 0 ≤ fusedScore (1/2) (1/2) A B key ∧ fusedScore (1/2) (1/2) A B key ≤ 1
  cases hA1 : lookupScore A key with
  | some a =>
    obtain ⟨ha0, ha1⟩ := hA _ (lookupScore_mem hA1)
    cases hB1 : lookupScore B key with
    | some b =>
      obtain ⟨hb0, hb1⟩ := hB _ (lookupScore_mem hB1)
      simp only [fusedScore, hA1, hB1]
      constructor <;> linarith
    | none =>
      simp only [fusedScore, hA1, hB1]
      exact ⟨ha0, ha1⟩
  | none =>
    cases hB1 : lookupScore B key with
    | some b =>
      obtain ⟨hb0, hb1⟩ := hB _ (lookupScore_mem hB1)
      simp only [fusedScore, hA1, hB1]
      exact ⟨hb0, hb1⟩
    | none =>
      simp only [fusedScore, hA1, hB1]
      norm_num

theorem hybrid_scores_in_unit_interval_witness :
    0 ≤ (((1, 0), 1) : SegKey × ℚ).2 ∧ (((1, 0), 1) : SegKey × ℚ).2 ≤ 1 :=
  hybrid_scores_in_unit_interval 5 [((1, 0), 1)] []
    (fun p hp => by
      rw [List.mem_singleton] at hp
      subst hp
      norm_num)
    (fun p hp => by simp at hp)
    ((1, 0), 1)
    (by decide)

/-! ## Theorems for the index writer claim -/

theorem upsert_entriesFor_self (idx : List IndexEntry) (e : IndexEntry)
    (h : (entriesFor idx (entryKey e)).length ≤ 1) :
    entriesFor (upsert idx e) (entryKey e) = [e] := by
  induction idx with
  | nil => simp [entriesFor, upsert]
  | cons x rest ih =>
    by_cases hx : entryKey x = entryKey e
    · rw [upsert, if_pos hx]
      have hlen : (entriesFor (x :: rest) (entryKey e)).length =
          (entriesFor rest (entryKey e)).length + 1 := by
        simp [entriesFor, List.filter_cons, hx]
      have hrest : entriesFor rest (entryKey e) = [] := by
        rw [← List.length_eq_zero]
        omega
      simp only [entriesFor] at hrest ⊢
      simp [List.filter_cons, hrest]
    · rw [upsert, if_neg hx]
      have hskip : ∀ l : List IndexEntry,
          entriesFor (x :: l) (entryKey e) = entriesFor l (entryKey e) := by
        intro l
        simp [entriesFor, List.filter_cons, hx]
      rw [hskip]
      exact ih (by rw [hskip (l := rest)] at h; exact h)

theorem upsert_entriesFor_other (idx : List IndexEntry) (e : IndexEntry)
    (key : SegKey) (hk : key ≠ entryKey e) :
    entriesFor (upsert idx e) key = entriesFor idx key := by
  induction idx with
  | nil =>
    have hek : ¬ entryKey e = key := fun h => hk h.symm
    simp [entriesFor, upsert, List.filter_cons, hek]
  | cons x rest ih =>
    by_cases hx : entryKey x = entryKey e
    · rw [upsert, if_pos hx]
      have hek : ¬ entryKey e = key := fun h => hk h.symm
      have hxk : ¬ entryKey x = key := fun h => hek (hx.symm.trans h)
      simp [entriesFor, List.filter_cons, hxk, hek]
    · rw [upsert, if_neg hx]
      simp only [entriesFor, List.filter_cons] at ih ⊢
      rw [ih]

theorem upsert_preserves_unique (idx : List IndexEntry) (e : IndexEntry)
    (key : SegKey) (h : (entriesFor idx key).length ≤ 1) :
    (entriesFor (upsert idx e) key).length ≤ 1 := by
  by_cases hk : key = entryKey e
  · subst hk
    rw [upsert_entriesFor_self idx e h]
    simp
  · rw [upsert_entriesFor_other idx e key hk]
    exact h

/-- C5: in a well-formed index holding at most one entry per key, two
consecutive upserts to the same key leave exactly one entry under that
key, holding the data written second, and the index still has no
duplicate entry under any key. -/
theorem upsert_overwrites_without_duplicates :
    ∀ (idx : List IndexEntry) (e1 e2 : IndexEntry),
      entryKey e1 = entryKey e2 →
      (∀ key, (entriesFor idx key).length ≤ 1) →
      entriesFor (upsert (upsert idx e1) e2) (entryKey e2) = [e2] ∧
      (∀ key, (entriesFor (upsert (upsert idx e1) e2) key).length ≤ 1) := by
  intro idx e1 e2 _ hidx
  have h1 : ∀ key, (entriesFor (upsert idx e1) key).length ≤ 1 :=
    fun key => upsert_preserves_unique idx e1 key (hidx key)
  exact ⟨upsert_entriesFor_self _ e2 (h1 _),
    fun key => upsert_preserves_unique _ e2 key (h1 key)⟩

theorem upsert_overwrites_witness :
    entriesFor (upsert (upsert [] ⟨1, 0, [1], 1, "old"⟩) ⟨1, 0, [2], 2, "new"⟩)
      (entryKey ⟨1, 0, [2], 2, "new"⟩) = [⟨1, 0, [2], 2, "new"⟩] :=
  (upsert_overwrites_without_duplicates [] ⟨1, 0, [1], 1, "old"⟩
    ⟨1, 0, [2], 2, "new"⟩ (by rfl) (fun key => by simp [entriesFor])).1

/-! ## Theorems for the modality retry claim -/

/-- C7: a modality that already succeeded keeps its retained result and
receives no further capability call; a required modality that has not
succeeded is the one called again; a segment is stage-complete exactly
when every required modality holds a result; and the Embedding stage as
a whole succeeds exactly when every segment is stage-complete. -/
theorem modality_retry_and_completion :
    (∀ (req : ModalityReq) (ov oa : ModalityOutcome) (s : SegEmbState)
        (v : List ℚ), s.visual = some v →
      (attemptStep req ov oa s).visual = some v ∧
      (attemptStep req ov oa s).visualCalls = s.visualCalls) ∧
    (∀ (req : ModalityReq) (ov oa : ModalityOutcome) (s : SegEmbState)
        (v : List ℚ), s.audio = some v →
      (attemptStep req ov oa s).audio = some v ∧
      (attemptStep req ov oa s).audioCalls = s.audioCalls) ∧
    (∀ (req : ModalityReq) (ov oa : ModalityOutcome) (s : SegEmbState),
      s.visual = none → req.needVisual = true →
      (attemptStep req ov oa s).visualCalls = s.visualCalls + 1) ∧
    (∀ (req : ModalityReq) (ov oa : ModalityOutcome) (s : SegEmbState),
      s.audio = none → req.needAudio = true →
      (attemptStep req ov oa s).audioCalls = s.audioCalls + 1) ∧
    (∀ (req : ModalityReq) (s : SegEmbState),
      stageComplete req s = true ↔
        ((req.needVisual = true → s.visual.isSome = true) ∧
         (req.needAudio = true → s.audio.isSome = true))) ∧
    (∀ l : List (ModalityReq × SegEmbState),
      embeddingStageComplete l = true ↔
        ∀ p ∈ l, stageComplete p.1 p.2 = true) := by
  refine ⟨?_, ?_, ?_, ?_, ?_, ?_⟩
  · intro req ov oa s v hv
    constructor <;> simp [attemptStep, hv]
  · intro req ov oa s v hv
    constructor <;> simp [attemptStep, hv]
  · intro req ov oa s hv hreq
    simp [attemptStep, hv, hreq]
  · intro req ov oa s hv hreq
    simp [attemptStep, hv, hreq]
  · intro req s
    obtain ⟨nv, na⟩ := req
    cases nv <;> cases na <;> cases hv : s.visual <;> cases ha : s.audio <;>
      simp [stageComplete, hv, ha]
  · intro l
    simp [embeddingStageComplete, List.all_eq_true]

theorem modality_retry_witness :
    (attemptStep ⟨true, true⟩ .failure .failure ⟨some [1], none, 1, 2⟩).visual =
      some [1] ∧
    (attemptStep ⟨true, true⟩ .failure .failure
      ⟨some [1], none, 1, 2⟩).visualCalls = 1 :=
  modality_retry_and_completion.1 ⟨true, true⟩ .failure .failure
    ⟨some [1], none, 1, 2⟩ [1] rfl

/-! ## Theorems for the search validation claim -/

/-- C4: a search request with no usable text and no image is rejected as
a validation error with zero index retrievals performed; a validation
error is never retried; and the frontend submit handler never dispatches
a search whose trimmed query is empty. -/
theorem empty_query_rejected_before_retrieval :
    (∀ (q : SearchQuery) (wA wB : ℚ) (A B : List (SegKey × ℚ)),
      hasText q = false → q.image = none →
      searchEndpoint q wA wB A B = (.error .validation, 0)) ∧
    retryable .validation = false ∧
    (∀ (query : String) (visual audio : Bool) (topK : Nat),
      trimChars query = [] → handle_submit query visual audio topK = none) := by
  refine ⟨?_, rfl, ?_⟩
  · intro q wA wB A B hq himg
    simp [searchEndpoint, validSearchRequest, hq, himg]
  · intro query visual audio topK h
    simp [handle_submit, h]

theorem empty_query_rejected_witness :
    searchEndpoint ⟨none, none, .vector, 5⟩ (1/2) (1/2) [] [] =
      (.error .validation, 0) ∧
    handle_submit " " true true 10 = none :=
  ⟨empty_query_rejected_before_retrieval.1 ⟨none, none, .vector, 5⟩
      (1/2) (1/2) [] [] rfl rfl,
    empty_query_rejected_before_retrieval.2.2 " " true true 10 (by decide)⟩

end SearchVideos
